import Mathlib

/-!
Verification of the Bubblegum Cars availability engine
(interval computation and day-classification core).

Shallow embedding of the JavaScript sources:
  - `src/api/availability.js`  (the "availability.js variant")
  - `src/unnamed/part_000`     (the "part_000 variant")

Instants are epoch milliseconds modelled as `Int` (JS numbers are exact at
these magnitudes).  The floor-division semantics of the JS `Date` UTC
accessors are modelled with `%` and `/` on `Int` (Euclidean mod/div, which
coincide with floor semantics for the positive divisors used here).
-/

namespace Bubblegum

/-! ### Calendar arithmetic

`Date.UTC(y, m, d, hh, mm, ss)` for an in-range civil triple equals
`daysFromCivil y m d * 86400000 + hh*3600000 + mm*60000 + ss*1000`;
`daysFromCivil`/`civilFromDays` are the standard proleptic-Gregorian
conversions (epoch 1970-01-01), which is what the JS engine computes. -/

/-- Days since 1970-01-01 of the civil date `(y, m, d)`, `m ∈ [1,12]`. -/
def daysFromCivil (y m d : Int) : Int :=
  let y2 := if m ≤ 2 then y - 1 else y
  let era := (if 0 ≤ y2 then y2 else y2 - 399) / 400
  let yoe := y2 - era * 400
  let doy := (153 * (if m ≤ 2 then m + 9 else m - 3) + 2) / 5 + d - 1
  let doe := yoe * 365 + yoe / 4 - yoe / 100 + doy
  era * 146097 + doe - 719468

/-- Civil date `(y, m, d)` of a day number (inverse of `daysFromCivil`);
used only to model the month/day fields of JS `Date` formatting. -/
def civilFromDays (z0 : Int) : Int × Int × Int :=
  let z := z0 + 719468
  let era := (if 0 ≤ z then z else z - 146096) / 146097
  let doe := z - era * 146097
  let yoe := (doe - doe / 1460 + doe / 36524 - doe / 146096) / 365
  let y := yoe + era * 400
  let doy := doe - (365 * yoe + yoe / 4 - yoe / 100)
  let mp := (5 * doy + 2) / 153
  let d := doy - (153 * mp + 2) / 5 + 1
  let m := if mp < 10 then mp + 3 else mp - 9
  (if m ≤ 2 then y + 1 else y, m, d)

/-! ### Timestamp strings

A Booqable timestamp string `YYYY-MM-DD[ T]HH:MM[:SS][.fff](Z|±HH:MM|±HHMM)?`
is modelled by its parsed civil fields plus its zone suffix.  A raw field that
is absent or does not match the grammar at all is modelled as `none`
(both JS parsers return `null` on it). -/

/-- Explicit zone suffix of a timestamp string. -/
inductive Zone where
  /-- the "Z" suffix -/
  | z : Zone
  /-- a "±HH:MM" suffix denoting this many minutes -/
  | colon (mins : Int) : Zone
  /-- a "±HHMM" suffix (no colon) denoting this many minutes -/
  | compact (mins : Int) : Zone
deriving DecidableEq, Repr

/-- The minutes denoted by an explicit zone suffix. -/
def zoneOffsetMinutes : Zone → Int
  | Zone.z => 0
  | Zone.colon m => m
  | Zone.compact m => m

/-- Civil fields of a timestamp string, plus its optional zone suffix. -/
structure Timestamp where
  year : Int
  month : Int
  day : Int
  hour : Int
  minute : Int
  second : Int
  zone : Option Zone
deriving DecidableEq, Repr

/-- `Date.UTC` of the civil fields: the instant the digits denote when read
as UTC (`civilTimeTreatedAsUTC`). -/
def civilMs (t : Timestamp) : Int :=
  daysFromCivil t.year t.month t.day * 86400000 +
    t.hour * 3600000 + t.minute * 60000 + t.second * 1000

/-- part_000 lines 25-71, `parseBooqableToAbs`: if the string carries an
explicit zone (`hasExplicitTimezone` matches `Z`, `±HH:MM` and `±HHMM`),
`Date.parse` yields the absolute instant it denotes; otherwise
`parseNaiveLocalAsAbs` reads the digits as local civil time and subtracts
the fixed offset (`TZ_OFFSET_MS`, taken here as the argument `tzOffsetMs`). -/
def parseBooqableToAbs (tzOffsetMs : Int) : Option Timestamp → Option Int
  | none => none
  | some t =>
    match t.zone with
    | some zo => some (civilMs t - zoneOffsetMinutes zo * 60000)
    | none => some (civilMs t - tzOffsetMs)

/-- availability.js lines 63-73, `parseBooqableDate`: strips a trailing
`Z` or `±HH:MM` marker (the regex does not match `±HHMM`), then reads the
remainder as naive local time and subtracts `accountOffsetMinutes`.
A `±HHMM` suffix survives the strip, so `new Date(naive + "Z")` is invalid
and the function returns `null`. -/
def parseBooqableDate (accountOffsetMinutes : Int) : Option Timestamp → Option Int
  | none => none
  | some t =>
    match t.zone with
    | some (Zone.compact _) => none
    | _ => some (civilMs t - accountOffsetMinutes * 60000)

/-- The timestamp rule stated by the spec (section 4.1), written from the
spec's words for comparison with the source parsers: explicit zone
information parses directly to the absolute instant denoted; otherwise
`Instant = civilTimeTreatedAsUTC(ts) - fixedOffsetMinutes`. -/
def specParse (fixedOffsetMinutes : Int) : Option Timestamp → Option Int
  | none => none
  | some t =>
    match t.zone with
    | some zo => some (civilMs t - zoneOffsetMinutes zo * 60000)
    | none => some (civilMs t - fixedOffsetMinutes * 60000)

/-! ### Formatting helpers (part_000 lines 12, 74-105; availability.js
uses `Intl.DateTimeFormat` with the account's fixed-offset zone, which
renders the same clock fields) -/

/-- part_000 `pad2`. -/
def pad2 (n : Int) : String :=
  let s := toString n
  if s.length < 2 then "0" ++ s else s

/-- Local clock "HH:MM" of an absolute instant under a fixed offset
(part_000 `fmtTimeFromAbs`; `getUTCHours`/`getUTCMinutes` of
`absMs + tzOffsetMs`). -/
def fmtTimeFromAbs (tzOffsetMs absMs : Int) : String :=
  let b := absMs + tzOffsetMs
  pad2 ((b % 86400000) / 3600000) ++ ":" ++ pad2 ((b % 3600000) / 60000)

/-- part_000 `fmtTime`: parse then format, empty string on parse failure. -/
def fmtTime (tzOffsetMs : Int) (ts : Option Timestamp) : String :=
  match parseBooqableToAbs tzOffsetMs ts with
  | none => ""
  | some t => fmtTimeFromAbs tzOffsetMs t

/-- part_000 `hourInTz`: local hour of a timestamp, 0 on parse failure. -/
def hourInTz (tzOffsetMs : Int) (ts : Option Timestamp) : Int :=
  match parseBooqableToAbs tzOffsetMs ts with
  | none => 0
  | some t => ((t + tzOffsetMs) % 86400000) / 3600000

/-- Weekday names as used by both variants (`getUTCDay` order). -/
def weekdayNames : List String := ["Sun", "Mon", "Tue", "Wed", "Thu", "Fri", "Sat"]

/-- Month names as used by both variants. -/
def monthNames : List String :=
  ["Jan", "Feb", "Mar", "Apr", "May", "Jun", "Jul", "Aug", "Sep", "Oct", "Nov", "Dec"]

/-- part_000 `fmtDayTimeFromAbs`: "Wkd, DD Mon HH:MM" in the fixed-offset
zone.  1970-01-01 was a Thursday, so `getUTCDay` is `(days + 4) mod 7`. -/
def fmtDayTimeFromAbs (tzOffsetMs absMs : Int) : String :=
  let b := absMs + tzOffsetMs
  let days := b / 86400000
  let c := civilFromDays days
  weekdayNames.getD ((days + 4) % 7).toNat "" ++ ", " ++ pad2 c.2.2 ++ " " ++
    monthNames.getD (c.2.1 - 1).toNat "" ++ " " ++
    pad2 ((b % 86400000) / 3600000) ++ ":" ++ pad2 ((b % 3600000) / 60000)

/-- availability.js `fmtDayLabel` (`Intl.DateTimeFormat` en-AU, short
weekday, 2-digit day, short month, in the account zone, modelled with the
fixed account offset; the exact separator Intl renders is immaterial to
the claims, which only distinguish this from the literal "Available now"). -/
def fmtDayLabel (offsetMinutes absMs : Int) : String :=
  let b := absMs + offsetMinutes * 60000
  let days := b / 86400000
  let c := civilFromDays days
  weekdayNames.getD ((days + 4) % 7).toNat "" ++ " " ++ pad2 c.2.2 ++ " " ++
    monthNames.getD (c.2.1 - 1).toNat ""

/-- availability.js `fmtNextAvailable`: day label plus local "HH:MM". -/
def fmtNextAvailable (offsetMinutes absMs : Int) : String :=
  fmtDayLabel offsetMinutes absMs ++ " " ++ fmtTimeFromAbs (offsetMinutes * 60000) absMs

/-! ### Busy intervals and the merge (IntervalMerger)

`{ start, end }` half-open in ms; the JS field `end` is spelled `stop`
(`end` is a Lean keyword). -/

/-- A busy interval `[start, stop)` in absolute ms (JS `{start, end}`). -/
structure Interval where
  start : Int
  stop : Int
deriving DecidableEq, Repr

/-- Stable insertion by an integer key, modelling the stable JS
`Array.prototype.sort` with a numeric key comparator. -/
def insertBy {α : Type} (key : α → Int) (x : α) : List α → List α
  | [] => [x]
  | y :: t => if key x ≤ key y then x :: y :: t else y :: insertBy key x t

/-- Stable sort ascending by an integer key (JS `sort((a,b) => k(a)-k(b))`). -/
def sortBy {α : Type} (key : α → Int) : List α → List α
  | [] => []
  | x :: t => insertBy key x (sortBy key t)

/-- Sort intervals ascending by `start` (part_000 line 219,
availability.js line 482). -/
def sortByStart (l : List Interval) : List Interval :=
  sortBy (fun b => b.start) l

/-- The sweep-and-fold of the merge (part_000 lines 224-231, part_008
lines 335-343): `last` is the interval being grown; if `cur.start ≤
last.end` extend `last.end = max(last.end, cur.end)`, else emit `last`
and start a new run at `cur`. -/
def mergeRuns (last : Interval) : List Interval → List Interval
  | [] => [last]
  | cur :: rest =>
    if cur.start ≤ last.stop then
      mergeRuns { start := last.start, stop := max last.stop cur.stop } rest
    else
      last :: mergeRuns cur rest

/-- `merge(intervals)`: sort ascending by start, then sweep and fold. -/
def merge (l : List Interval) : List Interval :=
  match sortByStart l with
  | [] => []
  | h :: t => mergeRuns h t

/-- Membership of an instant in the union of a list of half-open
intervals. -/
def inUnion (l : List Interval) (x : Int) : Prop :=
  ∃ b ∈ l, b.start ≤ x ∧ x < b.stop

instance (l : List Interval) (x : Int) : Decidable (inUnion l x) := by
  unfold inUnion; infer_instance

/-! ### The rentable-gap walk (AvailabilityClassifier core)

part_000 `computeRentableStartAbs` lines 233-253 (identical walk in
part_008 `computeRealisticNextAvailable` lines 345-379). -/

/-- First loop (part_000 lines 235-241): if the candidate lies inside a
busy interval, advance it to that interval's end and stop; stop as soon
as an interval starts after the candidate. -/
def advanceOut : List Interval → Int → Int
  | [], c => c
  | b :: rest, c =>
    if b.start ≤ c ∧ c < b.stop then b.stop
    else if c < b.start then c
    else advanceOut rest c

/-- Second loop (part_000 lines 243-251): walk the busy list; at a gap of
at least `minGap` before the next busy start return the candidate,
otherwise skip past that interval; jump out of any interval containing
the candidate. -/
def walkGaps (minGap : Int) : List Interval → Int → Int
  | [], c => c
  | b :: rest, c =>
    if c < b.start then
      if minGap ≤ b.start - c then c else walkGaps minGap rest b.stop
    else if b.start ≤ c ∧ c < b.stop then walkGaps minGap rest b.stop
    else walkGaps minGap rest c

/-- The spec's `nextRentableInstant(merged, from, minGap)`: the candidate
walk of `computeRentableStartAbs` applied to an already-merged list. -/
def nextRentableInstant (busy : List Interval) (fromAbs minGap : Int) : Int :=
  walkGaps minGap busy (advanceOut busy fromAbs)

/-! ### part_000 plannings and classifier -/

/-- A planning row as mapped by the part_000 handler (lines 306-314):
`reserved_from = a.reserved_from || a.starts_at` and so on; each field is
the structured form of the raw string, `none` when absent or malformed. -/
structure Planning where
  reserved_from : Option Timestamp
  reserved_till : Option Timestamp
  starts_at : Option Timestamp
  stops_at : Option Timestamp
deriving DecidableEq, Repr

/-- part_000 `isBookedNow` (lines 190-197). -/
def isBookedNow (tz : Int) (ps : List Planning) (nowAbs : Int) : Bool :=
  ps.any fun p =>
    match parseBooqableToAbs tz p.reserved_from, parseBooqableToAbs tz p.reserved_till with
    | some s, some e => decide (s ≤ nowAbs ∧ nowAbs < e)
    | _, _ => false

/-- part_000 `findNextBookingStartAbs` (lines 199-209). -/
def findNextBookingStartAbs (tz : Int) (ps : List Planning) (fromAbs : Int) : Option Int :=
  ps.foldl
    (fun next p =>
      match parseBooqableToAbs tz p.reserved_from, parseBooqableToAbs tz p.reserved_till with
      | some s, some e =>
        if e ≤ fromAbs then next
        else
          match next with
          | none => if fromAbs ≤ s then some s else none
          | some n => if fromAbs ≤ s ∧ s < n then some s else some n
      | _, _ => next)
    none

/-- The interval list built inside `computeRentableStartAbs` (part_000
lines 213-219 before the sort): parse both ends, keep rows whose end lies
after `fromAbs`. -/
def planIntervals (tz fromAbs : Int) (ps : List Planning) : List Interval :=
  ps.filterMap fun p =>
    match parseBooqableToAbs tz p.reserved_from, parseBooqableToAbs tz p.reserved_till with
    | some s, some e => if fromAbs < e then some { start := s, stop := e } else none
    | _, _ => none

/-- part_000 `computeRentableStartAbs` (lines 212-254): build and merge
the busy list, then walk it for the first gap of at least `minGap`. -/
def computeRentableStartAbs (tz minGap : Int) (ps : List Planning) (fromAbs : Int) : Int :=
  match sortByStart (planIntervals tz fromAbs ps) with
  | [] => fromAbs
  | h :: t =>
    let busy := mergeRuns h t
    walkGaps minGap busy (advanceOut busy fromAbs)

/-- part_000 handler lines 316-331: the `nextAvailable` string.
`gapToNextStart` is `Infinity` when no upcoming booking exists. -/
def nextAvailableP0 (tz minGap : Int) (ps : List Planning) (nowAbs : Int) : String :=
  if isBookedNow tz ps nowAbs then
    fmtDayTimeFromAbs tz (computeRentableStartAbs tz minGap ps nowAbs)
  else
    match findNextBookingStartAbs tz ps nowAbs with
    | none => "Available now"
    | some s =>
      if minGap ≤ s - nowAbs then "Available now"
      else fmtDayTimeFromAbs tz (computeRentableStartAbs tz minGap ps nowAbs)

/-- A day window `[fromAbs, tillAbs)` (part_000 `dayBoundsAbs` output;
the presentation-only `date`/`label` strings are omitted). -/
structure DayWindow where
  fromAbs : Int
  tillAbs : Int
deriving DecidableEq, Repr

/-- A day tile; `status` is the literal JS string, optional time fields as
in both variants (presentation-only `date`/`label` omitted). -/
structure Tile where
  status : String
  bookedFrom : Option String := none
  bookedUntil : Option String := none
  backTime : Option String := none
  freeTime : Option String := none
deriving DecidableEq, Repr

/-- part_000 lines 334-339: plannings whose parsed reserved interval
overlaps the day window (`overlaps` is strict on both sides). -/
def dayOverlapsOf (tz : Int) (day : DayWindow) (ps : List Planning) : List Planning :=
  ps.filter fun p =>
    match parseBooqableToAbs tz p.reserved_from, parseBooqableToAbs tz p.reserved_till with
    | some aFrom, some aTill => decide (aFrom < day.tillAbs ∧ day.fromAbs < aTill)
    | _, _ => false

/-- Sort key: parsed `reserved_from` (non-null on the lists it is used
on, `getD 0` mirrors the JS comparator's unchecked subtraction). -/
def keyFrom (tz : Int) (p : Planning) : Int :=
  (parseBooqableToAbs tz p.reserved_from).getD 0

/-- Sort key: parsed `reserved_till`. -/
def keyTill (tz : Int) (p : Planning) : Int :=
  (parseBooqableToAbs tz p.reserved_till).getD 0

/-- part_000 lines 346-351: overlapping plannings whose reserved start
falls inside the day window. -/
def startsTodayOf (tz : Int) (day : DayWindow) (ps : List Planning) : List Planning :=
  (dayOverlapsOf tz day ps).filter fun p =>
    match parseBooqableToAbs tz p.reserved_from with
    | some aFrom => decide (day.fromAbs ≤ aFrom ∧ aFrom < day.tillAbs)
    | none => false

/-- part_000 lines 368-374: carry-over plannings that started before the
day and whose reserved end is at or before end of day. -/
def carryReturnOf (tz : Int) (day : DayWindow) (ps : List Planning) : List Planning :=
  (dayOverlapsOf tz day ps).filter fun p =>
    match parseBooqableToAbs tz p.reserved_from, parseBooqableToAbs tz p.reserved_till with
    | some aFrom, some aTill => decide (aFrom < day.fromAbs ∧ aTill ≤ day.tillAbs)
    | _, _ => false

/-- part_000 lines 333-398: the per-day tile (the body of the
`dayStatuses` map). -/
def dayStatusFor (tz cutoff : Int) (day : DayWindow) (ps : List Planning) : Tile :=
  match dayOverlapsOf tz day ps with
  | [] => { status := "Available" }
  | _ :: _ =>
    match sortBy (keyFrom tz) (startsTodayOf tz day ps) with
    | p :: _ =>
      { status := "Booked"
        bookedFrom := some (fmtTime tz (p.starts_at <|> p.reserved_from))
        bookedUntil := some (fmtTime tz (p.stops_at <|> p.reserved_till)) }
    | [] =>
      match sortBy (keyTill tz) (carryReturnOf tz day ps) with
      | p :: _ =>
        if hourInTz tz p.reserved_till < cutoff then { status := "Available" }
        else
          let backTime := fmtTime tz (p.stops_at <|> p.reserved_till)
          let freeTime := fmtTime tz p.reserved_till
          if backTime = freeTime then { status := "Heads-up", backTime := some backTime }
          else
            { status := "Heads-up", backTime := some backTime, freeTime := some freeTime }
      | [] => { status := "Booked" }

/-- part_000 `dayStatuses` (line 333): one tile per day window. -/
def dayStatuses (tz cutoff : Int) (days : List DayWindow) (ps : List Planning) : List Tile :=
  days.map fun day => dayStatusFor tz cutoff day ps

/-! ### availability.js: business-hours rounding, tiles, nextAvailable,
and the planning-processing loop -/

/-- availability.js lines 121-151, `roundToBusinessHours`: local times
from 18:00, or up to and including 08:45, are moved to 09:00 local on the
next, respectively same, local day; other instants pass through.  The
source reads the local civil date with `getUTCFullYear/Month/Date` and
rebuilds `Date.UTC(y, m, d(+1), 9, 0, 0)`; for an in-range civil triple
that is 09:00 on the same/next epoch day, used directly here.  (The
source's `timezone` argument is unused by its logic and omitted.) -/
def roundToBusinessHours (offsetMinutes utcMs : Int) : Int :=
  let localMs := utcMs + offsetMinutes * 60000
  let hours := (localMs % 86400000) / 3600000
  let minutes := (localMs % 3600000) / 60000
  let isLateEvening := 18 ≤ hours
  let isEarlyMorning := hours < 8 ∨ (hours = 8 ∧ minutes ≤ 45)
  if isLateEvening ∨ isEarlyMorning then
    let day := localMs / 86400000
    let targetDay := if isLateEvening then day + 1 else day
    targetDay * 86400000 + 9 * 3600000 - offsetMinutes * 60000
  else utcMs

/-- A buffer-padded interval as pushed by the availability.js planning
loop (lines 467-472): buffered bounds plus the unbuffered instants. -/
structure IV where
  startMs : Int
  endMs : Int
  /-- unbuffered start instant (the JS `startsRaw` Date) -/
  startsRaw : Int
  /-- unbuffered stop instant (the JS `stopsRaw` Date) -/
  stopsRaw : Int
deriving DecidableEq, Repr

/-- availability.js `overlap` (lines 75-77). -/
def overlap (aStart aEnd bStart bEnd : Int) : Bool :=
  decide (aStart < bEnd ∧ bStart < aEnd)

/-- An availability.js day window `[startUtcMs, endUtcMs)` (lines
231-241; presentation-only `date`/`label` omitted). -/
structure AvailDay where
  startUtcMs : Int
  endUtcMs : Int
deriving DecidableEq, Repr

/-- availability.js lines 574-628: the per-day tile (the body of the
`tiles` map).  `ivals` is the per-car interval list sorted by `startMs`. -/
def tileFor (offsetMinutes : Int) (d : AvailDay) (ivals : List IV) : Tile :=
  match ivals.filter fun iv => overlap iv.startMs iv.endMs d.startUtcMs d.endUtcMs with
  | [] => { status := "Available" }
  | first :: _ =>
    let bookedFrom := fmtTimeFromAbs (offsetMinutes * 60000) first.startsRaw
    let bookedUntil := fmtTimeFromAbs (offsetMinutes * 60000) first.stopsRaw
    if first.endMs < d.endUtcMs then
      let roundedEndMs := roundToBusinessHours offsetMinutes first.endMs
      if roundedEndMs < d.endUtcMs then
        { status := "Heads-up"
          bookedFrom := some bookedFrom
          bookedUntil := some bookedUntil
          backTime := some (fmtTimeFromAbs (offsetMinutes * 60000) first.stopsRaw)
          freeTime := some (fmtTimeFromAbs (offsetMinutes * 60000) roundedEndMs) }
      else
        { status := "Booked", bookedFrom := some bookedFrom, bookedUntil := some bookedUntil }
    else
      { status := "Booked", bookedFrom := some bookedFrom, bookedUntil := some bookedUntil }

/-- availability.js `tiles` (line 574): one tile per day. -/
def tiles (offsetMinutes : Int) (days : List AvailDay) (ivals : List IV) : List Tile :=
  days.map fun d => tileFor offsetMinutes d ivals

/-- availability.js lines 511-550: the slot-search loop of the
`nextAvailable` computation; `none` models `foundAvailableSlot = false`. -/
def nextAvailLoop (offsetMinutes minGapMs nowMs : Int) : List IV → Option String
  | [] => none
  | iv :: rest =>
    if iv.endMs ≤ nowMs then nextAvailLoop offsetMinutes minGapMs nowMs rest
    else
      let roundedEndMs := roundToBusinessHours offsetMinutes iv.endMs
      match rest with
      | [] => some (fmtNextAvailable offsetMinutes roundedEndMs)
      | next :: _ =>
        let gapMs := next.startMs - roundedEndMs
        if 0 < gapMs ∧ gapMs < minGapMs then
          some (fmtNextAvailable offsetMinutes roundedEndMs ++ " (booked " ++
            fmtTimeFromAbs (offsetMinutes * 60000) next.startMs ++ ")")
        else if minGapMs ≤ gapMs then some (fmtNextAvailable offsetMinutes roundedEndMs)
        else nextAvailLoop offsetMinutes minGapMs nowMs rest

/-- availability.js lines 493-571: the `nextAvailable` string for one
car.  "Available now" is produced only when the car is not booked now and
the local hour lies in `[9, 18)`. -/
def nextAvailableFor (offsetMinutes minGapMs nowMs : Int) (ivals : List IV) : String :=
  let bookedNow := ivals.any fun iv => decide (iv.startMs ≤ nowMs ∧ nowMs < iv.endMs)
  let currentHour := ((nowMs + offsetMinutes * 60000) % 86400000) / 3600000
  let isBusinessHours := 9 ≤ currentHour ∧ currentHour < 18
  if bookedNow = false ∧ isBusinessHours then "Available now"
  else
    match nextAvailLoop offsetMinutes minGapMs nowMs ivals with
    | some na => na
    | none =>
      if bookedNow = false ∧ ivals.isEmpty then
        fmtNextAvailable offsetMinutes (roundToBusinessHours offsetMinutes nowMs)
      else
        match ivals.getLast? with
        | some last =>
          fmtNextAvailable offsetMinutes (roundToBusinessHours offsetMinutes last.endMs)
        | none => fmtNextAvailable offsetMinutes (roundToBusinessHours offsetMinutes nowMs)

/-- A car as mapped by availability.js lines 275-282 (name/slug/photo
omitted; buffers in seconds). -/
structure CarRec where
  id : String
  buffer_before_s : Int
  buffer_after_s : Int
deriving DecidableEq, Repr

/-- A planning row for the availability.js loop: the resolvable product
references (`attributes.item_id`, which in Booqable v4 is the product id,
and the direct product relationship) and the raw timestamps.  The further
JSON:API relationship-traversal fallbacks (inventory_level, item, order
lines) concern transport plumbing outside the engine and are elided. -/
structure PlanRec where
  item_id : Option String
  product_rel : Option String
  starts_at : Option Timestamp
  stops_at : Option Timestamp
deriving DecidableEq, Repr

/-- availability.js `resolveProductIdFromPlanning` (lines 352-406),
restricted to the item_id / direct-product strategies. -/
def resolveProductIdFromPlanning (pl : PlanRec) : Option String :=
  match pl.item_id with
  | some i => some i
  | none => pl.product_rel

/-- The `debug` counters touched by the planning loop (lines 444-475).
Note there is no counter or record for a failed timestamp parse. -/
structure DebugCounters where
  planningsDroppedNoRel : Int := 0
  planningsDroppedUnknownCar : Int := 0
  planningsMappedToCars : Int := 0
deriving DecidableEq, Repr

/-- `carById.get` (line 461). -/
def findCar (cars : List CarRec) (pid : String) : Option CarRec :=
  cars.find? fun c => c.id == pid

/-- `intervalsByProduct.get(productId).push(...)` on an association list. -/
def pushInterval (m : List (String × List IV)) (pid : String) (iv : IV) :
    List (String × List IV) :=
  m.map fun e => if e.1 == pid then (e.1, e.2 ++ [iv]) else e

/-- One iteration of the availability.js planning loop (lines 444-475):
resolve the product (else count `planningsDroppedNoRel`), check it is a
known car (else count `planningsDroppedUnknownCar`), parse both
timestamps (`if (!starts || !stops) continue;` - a silent skip), then
push the buffer-padded interval and count `planningsMappedToCars`. -/
def processPlanning (cars : List CarRec) (offsetMinutes : Int)
    (st : List (String × List IV) × DebugCounters) (pl : PlanRec) :
    List (String × List IV) × DebugCounters :=
  match resolveProductIdFromPlanning pl with
  | none =>
    (st.1, { st.2 with planningsDroppedNoRel := st.2.planningsDroppedNoRel + 1 })
  | some pid =>
    match findCar cars pid with
    | none =>
      (st.1, { st.2 with planningsDroppedUnknownCar := st.2.planningsDroppedUnknownCar + 1 })
    | some car =>
      match parseBooqableDate offsetMinutes pl.starts_at,
          parseBooqableDate offsetMinutes pl.stops_at with
      | some starts, some stops =>
        let startMs := starts - car.buffer_before_s * 1000
        let endMs := stops + car.buffer_after_s * 1000
        (pushInterval st.1 pid
            { startMs := startMs, endMs := endMs, startsRaw := starts, stopsRaw := stops },
          { st.2 with planningsMappedToCars := st.2.planningsMappedToCars + 1 })
      | _, _ => st

/-- `intervalsByProduct` initialisation (line 287). -/
def initIntervals (cars : List CarRec) : List (String × List IV) :=
  cars.map fun c => (c.id, [])

/-- The availability.js planning loop over a page of rows. -/
def processPlannings (cars : List CarRec) (offsetMinutes : Int) (pls : List PlanRec) :
    List (String × List IV) × DebugCounters :=
  pls.foldl (processPlanning cars offsetMinutes) (initIntervals cars, {})

/-! ## Lemmas about the stable sort -/

theorem mem_insertBy {α : Type} (key : α → Int) (x a : α) (l : List α) :
    a ∈ insertBy key x l ↔ a = x ∨ a ∈ l := by
  induction l with
  | nil => simp [insertBy]
  | cons y t ih =>
    by_cases h : key x ≤ key y
    · simp [insertBy, h]
    · simp [insertBy, h, ih]
      tauto

theorem mem_sortBy {α : Type} (key : α → Int) (a : α) (l : List α) :
    a ∈ sortBy key l ↔ a ∈ l := by
  induction l with
  | nil => simp [sortBy]
  | cons x t ih => simp [sortBy, mem_insertBy, ih]

theorem pairwise_insertBy {α : Type} (key : α → Int) (x : α) (l : List α)
    (h : l.Pairwise fun a b => key a ≤ key b) :
    (insertBy key x l).Pairwise fun a b => key a ≤ key b := by
  induction l with
  | nil => simp [insertBy]
  | cons y t ih =>
    rcases List.pairwise_cons.mp h with ⟨hy, ht⟩
    by_cases hxy : key x ≤ key y
    · rw [insertBy, if_pos hxy]
      refine List.pairwise_cons.mpr ⟨?_, h⟩
      intro b hb
      rcases List.mem_cons.mp hb with rfl | hb2
      · exact hxy
      · exact le_trans hxy (hy b hb2)
    · rw [insertBy, if_neg hxy]
      refine List.pairwise_cons.mpr ⟨?_, ih ht⟩
      intro b hb
      rcases (mem_insertBy key x b t).mp hb with rfl | hb2
      · exact le_of_lt (lt_of_not_le hxy)
      · exact hy b hb2

theorem pairwise_sortBy {α : Type} (key : α → Int) (l : List α) :
    (sortBy key l).Pairwise fun a b => key a ≤ key b := by
  induction l with
  | nil => simp [sortBy]
  | cons x t ih => exact pairwise_insertBy key x _ ih

theorem sortBy_eq_self {α : Type} (key : α → Int) (l : List α)
    (h : l.Pairwise fun a b => key a ≤ key b) : sortBy key l = l := by
  induction l with
  | nil => rfl
  | cons x t ih =>
    rcases List.pairwise_cons.mp h with ⟨hx, ht⟩
    rw [sortBy, ih ht]
    cases t with
    | nil => rfl
    | cons y t2 => rw [insertBy, if_pos (hx y (by simp))]

/-! ## Lemmas about the merge sweep -/

theorem inUnion_cons (b : Interval) (l : List Interval) (x : Int) :
    inUnion (b :: l) x ↔ (b.start ≤ x ∧ x < b.stop) ∨ inUnion l x := by
  simp [inUnion]

theorem mergeRuns_head_start (h : Interval) (t : List Interval) :
    ∃ e rest, mergeRuns h t = { start := h.start, stop := e } :: rest := by
  induction t generalizing h with
  | nil => exact ⟨h.stop, [], rfl⟩
  | cons cur rest ih =>
    rw [mergeRuns]
    by_cases hc : cur.start ≤ h.stop
    · rw [if_pos hc]
      exact ih { start := h.start, stop := max h.stop cur.stop }
    · rw [if_neg hc]
      exact ⟨h.stop, mergeRuns cur rest, rfl⟩

theorem mergeRuns_start_mem (h : Interval) (t : List Interval) :
    ∀ y ∈ mergeRuns h t, y.start = h.start ∨ ∃ z ∈ t, y.start = z.start := by
  induction t generalizing h with
  | nil =>
    intro y hy
    rw [mergeRuns] at hy
    simp at hy
    subst hy
    exact Or.inl rfl
  | cons cur rest ih =>
    intro y hy
    rw [mergeRuns] at hy
    by_cases hc : cur.start ≤ h.stop
    · rw [if_pos hc] at hy
      rcases ih { start := h.start, stop := max h.stop cur.stop } y hy with h1 | ⟨z, hz, h2⟩
      · exact Or.inl h1
      · exact Or.inr ⟨z, List.mem_cons_of_mem _ hz, h2⟩
    · rw [if_neg hc] at hy
      rcases List.mem_cons.mp hy with rfl | hy2
      · exact Or.inl rfl
      · rcases ih cur y hy2 with h1 | ⟨z, hz, h2⟩
        · exact Or.inr ⟨cur, List.mem_cons_self cur rest, h1⟩
        · exact Or.inr ⟨z, List.mem_cons_of_mem _ hz, h2⟩

theorem mergeRuns_pairwise (h : Interval) (t : List Interval)
    (hp : (h :: t).Pairwise fun a b => a.start ≤ b.start) :
    (mergeRuns h t).Pairwise fun a b => a.start ≤ b.start := by
  induction t generalizing h with
  | nil => simp [mergeRuns]
  | cons cur rest ih =>
    rcases List.pairwise_cons.mp hp with ⟨hh, hp2⟩
    rw [mergeRuns]
    by_cases hc : cur.start ≤ h.stop
    · rw [if_pos hc]
      apply ih
      refine List.pairwise_cons.mpr ⟨?_, (List.pairwise_cons.mp hp2).2⟩
      intro b hb
      exact hh b (List.mem_cons_of_mem _ hb)
    · rw [if_neg hc]
      refine List.pairwise_cons.mpr ⟨?_, ih cur hp2⟩
      intro b hb
      rcases mergeRuns_start_mem cur rest b hb with h1 | ⟨z, hz, h2⟩
      · rw [h1]
        exact hh cur (by simp)
      · rw [h2]
        exact hh z (List.mem_cons_of_mem _ hz)

theorem mergeRuns_chain (h : Interval) (t : List Interval)
    (hp : (h :: t).Pairwise fun a b => a.start ≤ b.start) :
    (mergeRuns h t).Chain' fun a b => a.stop < b.start := by
  induction t generalizing h with
  | nil => simp [mergeRuns]
  | cons cur rest ih =>
    rcases List.pairwise_cons.mp hp with ⟨hh, hp2⟩
    rw [mergeRuns]
    by_cases hc : cur.start ≤ h.stop
    · rw [if_pos hc]
      apply ih
      refine List.pairwise_cons.mpr ⟨?_, (List.pairwise_cons.mp hp2).2⟩
      intro b hb
      exact hh b (List.mem_cons_of_mem _ hb)
    · rw [if_neg hc]
      rcases mergeRuns_head_start cur rest with ⟨e, r2, heq⟩
      rw [heq]
      refine List.chain'_cons.mpr ⟨lt_of_not_le hc, ?_⟩
      rw [← heq]
      exact ih cur hp2

theorem mergeRuns_union (h : Interval) (t : List Interval)
    (hp : (h :: t).Pairwise fun a b => a.start ≤ b.start) (x : Int) :
    inUnion (mergeRuns h t) x ↔ (h.start ≤ x ∧ x < h.stop) ∨ inUnion t x := by
  induction t generalizing h with
  | nil => simp [mergeRuns, inUnion]
  | cons cur rest ih =>
    rcases List.pairwise_cons.mp hp with ⟨hh, hp2⟩
    rw [mergeRuns]
    by_cases hc : cur.start ≤ h.stop
    · rw [if_pos hc]
      have hcs : h.start ≤ cur.start := hh cur (by simp)
      have hmerged : ({ start := h.start, stop := max h.stop cur.stop } :: rest).Pairwise
          fun a b => a.start ≤ b.start := by
        refine List.pairwise_cons.mpr ⟨?_, (List.pairwise_cons.mp hp2).2⟩
        intro b hb
        exact hh b (List.mem_cons_of_mem _ hb)
      rw [ih _ hmerged, inUnion_cons]
      have hml := le_max_left h.stop cur.stop
      have hmr := le_max_right h.stop cur.stop
      constructor
      · rintro (⟨h1, h2⟩ | hr)
        · rcases lt_max_iff.mp h2 with h3 | h3
          · exact Or.inl ⟨h1, h3⟩
          · rcases lt_or_le x h.stop with h4 | h4
            · exact Or.inl ⟨h1, h4⟩
            · exact Or.inr (Or.inl ⟨le_trans hc h4, h3⟩)
        · exact Or.inr (Or.inr hr)
      · rintro (⟨h1, h2⟩ | ⟨h1, h2⟩ | hr)
        · exact Or.inl ⟨h1, lt_of_lt_of_le h2 hml⟩
        · exact Or.inl ⟨le_trans hcs h1, lt_of_lt_of_le h2 hmr⟩
        · exact Or.inr hr
    · rw [if_neg hc, inUnion_cons, ih cur hp2, inUnion_cons]

theorem inUnion_sortByStart (l : List Interval) (x : Int) :
    inUnion (sortByStart l) x ↔ inUnion l x := by
  unfold inUnion sortByStart
  constructor
  · rintro ⟨b, hb, hx⟩
    exact ⟨b, (mem_sortBy _ b l).mp hb, hx⟩
  · rintro ⟨b, hb, hx⟩
    exact ⟨b, (mem_sortBy _ b l).mpr hb, hx⟩

theorem merge_pairwise_start (X : List Interval) :
    (merge X).Pairwise fun a b => a.start ≤ b.start := by
  unfold merge
  rcases hs : sortByStart X with _ | ⟨h, t⟩
  · simp
  · have hp := pairwise_sortBy (fun b => b.start) X
    rw [sortByStart] at hs
    rw [hs] at hp
    exact mergeRuns_pairwise h t hp

theorem merge_chain_gap (X : List Interval) :
    (merge X).Chain' fun a b => a.stop < b.start := by
  unfold merge
  rcases hs : sortByStart X with _ | ⟨h, t⟩
  · simp
  · have hp := pairwise_sortBy (fun b => b.start) X
    rw [sortByStart] at hs
    rw [hs] at hp
    exact mergeRuns_chain h t hp

theorem merge_union (X : List Interval) (x : Int) :
    inUnion (merge X) x ↔ inUnion X x := by
  have key := inUnion_sortByStart X x
  unfold sortByStart at key
  unfold merge
  rcases hs : sortByStart X with _ | ⟨h, t⟩
  · rw [sortByStart] at hs
    rw [hs] at key
    exact key
  · have hp := pairwise_sortBy (fun b => b.start) X
    rw [sortByStart] at hs
    rw [hs] at hp
    rw [hs] at key
    rw [mergeRuns_union h t hp x, ← inUnion_cons]
    exact key

theorem mergeRuns_eq_self (h : Interval) (t : List Interval)
    (hc : (h :: t).Chain' fun a b => a.stop < b.start) : mergeRuns h t = h :: t := by
  induction t generalizing h with
  | nil => rfl
  | cons cur rest ih =>
    rcases List.chain'_cons.mp hc with ⟨h1, h2⟩
    rw [mergeRuns, if_neg (not_le.mpr h1), ih cur h2]

/-! ## Lemmas about the rentable-gap walk -/

theorem walkGaps_ge (g : Int) (busy : List Interval) (c : Int)
    (hwf : ∀ b ∈ busy, b.start ≤ b.stop) : c ≤ walkGaps g busy c := by
  induction busy generalizing c with
  | nil => simp [walkGaps]
  | cons b rest ih =>
    have hwfb := hwf b (by simp)
    have hwfr : ∀ x ∈ rest, x.start ≤ x.stop := fun x hx => hwf x (List.mem_cons_of_mem _ hx)
    rw [walkGaps]
    by_cases h1 : c < b.start
    · rw [if_pos h1]
      by_cases h2 : g ≤ b.start - c
      · rw [if_pos h2]
      · rw [if_neg h2]
        have := ih b.stop hwfr
        omega
    · rw [if_neg h1]
      by_cases h3 : b.start ≤ c ∧ c < b.stop
      · rw [if_pos h3]
        have := ih b.stop hwfr
        omega
      · rw [if_neg h3]
        exact ih c hwfr

theorem chain_gap_forall (b : Interval) (rest : List Interval)
    (hc : (b :: rest).Chain' fun a b2 => a.stop < b2.start)
    (hwf : ∀ x ∈ rest, x.start ≤ x.stop) :
    ∀ x ∈ rest, b.stop < x.start := by
  induction rest generalizing b with
  | nil => simp
  | cons r0 rest2 ih =>
    rcases List.chain'_cons.mp hc with ⟨h1, h2⟩
    intro x hx
    rcases List.mem_cons.mp hx with rfl | hx2
    · exact h1
    · have hr0 := hwf r0 (by simp)
      have := ih r0 h2 (fun y hy => hwf y (List.mem_cons_of_mem _ hy)) x hx2
      omega

theorem walkGaps_spec (g : Int) (busy : List Interval) (c : Int)
    (hwf : ∀ b ∈ busy, b.start ≤ b.stop)
    (hc : busy.Chain' fun a b => a.stop < b.start) :
    ∀ b ∈ busy,
      ¬(b.start ≤ walkGaps g busy c ∧ walkGaps g busy c < b.stop) ∧
      (walkGaps g busy c < b.start → g ≤ b.start - walkGaps g busy c) := by
  induction busy generalizing c with
  | nil => simp
  | cons hd rest ih =>
    have hwfh := hwf hd (by simp)
    have hwfr : ∀ x ∈ rest, x.start ≤ x.stop := fun x hx => hwf x (List.mem_cons_of_mem _ hx)
    have hcr : rest.Chain' fun a b => a.stop < b.start := hc.tail
    have htrans := chain_gap_forall hd rest hc hwfr
    intro b hb
    rw [walkGaps]
    by_cases h1 : c < hd.start
    · rw [if_pos h1]
      by_cases h2 : g ≤ hd.start - c
      · rw [if_pos h2]
        rcases List.mem_cons.mp hb with rfl | hb2
        · exact ⟨fun hcon => by omega, fun _ => by omega⟩
        · have hbst := htrans b hb2
          exact ⟨fun hcon => by omega, fun _ => by omega⟩
      · rw [if_neg h2]
        rcases List.mem_cons.mp hb with rfl | hb2
        · have hge := walkGaps_ge g rest b.stop hwfr
          exact ⟨fun hcon => by omega, fun hlt => by omega⟩
        · exact ih hd.stop hwfr hcr b hb2
    · rw [if_neg h1]
      by_cases h3 : hd.start ≤ c ∧ c < hd.stop
      · rw [if_pos h3]
        rcases List.mem_cons.mp hb with rfl | hb2
        · have hge := walkGaps_ge g rest b.stop hwfr
          exact ⟨fun hcon => by omega, fun hlt => by omega⟩
        · exact ih hd.stop hwfr hcr b hb2
      · rw [if_neg h3]
        rcases List.mem_cons.mp hb with rfl | hb2
        · have hge := walkGaps_ge g rest c hwfr
          exact ⟨fun hcon => by omega, fun hlt => by omega⟩
        · exact ih c hwfr hcr b hb2

theorem merge_eq_self (l : List Interval)
    (hp : l.Pairwise fun a b => a.start ≤ b.start)
    (hc : l.Chain' fun a b => a.stop < b.start) : merge l = l := by
  have hsort : sortByStart l = l := sortBy_eq_self _ l hp
  unfold merge
  rw [hsort]
  cases l with
  | nil => rfl
  | cons h t => exact mergeRuns_eq_self h t hc

/-! ## Claim theorems -/

/-- C5: for every merged (sorted, non-overlapping) interval list, every
instant `fromAbs` and every non-negative `minGap`, the instant returned by
`nextRentableInstant` lies inside no busy interval, and every busy start
after the returned instant is at least `minGap` later (in particular the
earliest such start); the gap test is closed, a gap of exactly `minGap`
being accepted (see the witness, where the first gap equals `minGap`). -/
theorem nextRentableInstant_gap_guarantee (busy : List Interval) (fromAbs minGap : Int)
    (_hmin : 0 ≤ minGap)
    (hwf : ∀ b ∈ busy, b.start ≤ b.stop)
    (hchain : busy.Chain' fun a b => a.stop < b.start) :
    (∀ b ∈ busy, ¬(b.start ≤ nextRentableInstant busy fromAbs minGap ∧
        nextRentableInstant busy fromAbs minGap < b.stop)) ∧
    ∀ b ∈ busy, nextRentableInstant busy fromAbs minGap < b.start →
      minGap ≤ b.start - nextRentableInstant busy fromAbs minGap := by
  have hs := walkGaps_spec minGap busy (advanceOut busy fromAbs) hwf hchain
  exact ⟨fun b hb => (hs b hb).1, fun b hb => (hs b hb).2⟩

/-- Witness for C5 at a concrete input: busy `[10,20), [25,100)`, `from = 0`,
`minGap = 10`; the returned instant is `0` itself although the gap before the
first busy start is exactly `minGap` (closed gap test), and the guarantee
holds there. -/
theorem nextRentableInstant_gap_guarantee_witness :
    nextRentableInstant [Interval.mk 10 20, Interval.mk 25 100] 0 10 = 0 ∧
    (∀ b ∈ [Interval.mk 10 20, Interval.mk 25 100],
      ¬(b.start ≤ nextRentableInstant [Interval.mk 10 20, Interval.mk 25 100] 0 10 ∧
        nextRentableInstant [Interval.mk 10 20, Interval.mk 25 100] 0 10 < b.stop)) ∧
    ∀ b ∈ [Interval.mk 10 20, Interval.mk 25 100],
      nextRentableInstant [Interval.mk 10 20, Interval.mk 25 100] 0 10 < b.start →
        (10:Int) ≤ b.start - nextRentableInstant [Interval.mk 10 20, Interval.mk 25 100] 0 10 :=
  ⟨by decide,
    nextRentableInstant_gap_guarantee [Interval.mk 10 20, Interval.mk 25 100] 0 10
      (by decide) (by decide) (by norm_num [List.chain'_cons])⟩

/-- C6: for every input list `X`, `merge X` is sorted ascending by start,
adjacent merged intervals satisfy `end[i] < start[i+1]` (touching intervals
are coalesced, so the gap is strict), and the union of the merged intervals,
as a set of instants, equals the union of the intervals of `X`. -/
theorem merge_invariant (X : List Interval) :
    ((merge X).Pairwise fun a b => a.start ≤ b.start) ∧
    ((merge X).Chain' fun a b => a.stop < b.start) ∧
    ∀ x : Int, inUnion (merge X) x ↔ inUnion X x :=
  ⟨merge_pairwise_start X, merge_chain_gap X, merge_union X⟩

/-- C7: the interval merge is idempotent: `merge (merge X) = merge X` for
every input list `X`. -/
theorem merge_idempotent (X : List Interval) : merge (merge X) = merge X :=
  merge_eq_self (merge X) (merge_pairwise_start X) (merge_chain_gap X)

/-- C10: `roundToBusinessHours` (availability.js lines 121-151) never
returns an instant earlier than its input; it returns the input unchanged
exactly when the local clock lies between 08:46 and 17:59 inclusive;
inputs before 08:46 local map to 09:00 local the same local day and inputs
at or after 18:00 local map to 09:00 local the next local day; and the
function is idempotent. -/
theorem roundToBusinessHours_spec (offsetMinutes utcMs : Int) :
    utcMs ≤ roundToBusinessHours offsetMinutes utcMs ∧
    (roundToBusinessHours offsetMinutes utcMs = utcMs ↔
      (((utcMs + offsetMinutes * 60000) % 86400000) / 3600000 < 18 ∧
        (8 < ((utcMs + offsetMinutes * 60000) % 86400000) / 3600000 ∨
          (((utcMs + offsetMinutes * 60000) % 86400000) / 3600000 = 8 ∧
            46 ≤ ((utcMs + offsetMinutes * 60000) % 3600000) / 60000)))) ∧
    ((((utcMs + offsetMinutes * 60000) % 86400000) / 3600000 < 8 ∨
        (((utcMs + offsetMinutes * 60000) % 86400000) / 3600000 = 8 ∧
          ((utcMs + offsetMinutes * 60000) % 3600000) / 60000 ≤ 45)) →
      roundToBusinessHours offsetMinutes utcMs =
        ((utcMs + offsetMinutes * 60000) / 86400000) * 86400000 + 9 * 3600000 -
          offsetMinutes * 60000) ∧
    (18 ≤ ((utcMs + offsetMinutes * 60000) % 86400000) / 3600000 →
      roundToBusinessHours offsetMinutes utcMs =
        ((utcMs + offsetMinutes * 60000) / 86400000 + 1) * 86400000 + 9 * 3600000 -
          offsetMinutes * 60000) ∧
    roundToBusinessHours offsetMinutes (roundToBusinessHours offsetMinutes utcMs) =
      roundToBusinessHours offsetMinutes utcMs := by
  simp only [roundToBusinessHours]
  refine ⟨?_, ?_, ?_, ?_, ?_⟩ <;> split_ifs <;> omega

/-- C1 counterexample: for `ts = 2026-02-14T09:00:00Z` (explicit zone) and
`fixedOffsetMinutes = 600`, the spec rule yields the instant denoted by the
`Z` suffix (1771059600000), but availability.js's `parseBooqableDate`
strips the `Z` and treats the digits as naive local time, applying the
fixed offset and returning 1771023600000 - so the claim is false on this
parser. -/
theorem parseBooqableDate_drops_zone_cex :
    specParse 600 (some (Timestamp.mk 2026 2 14 9 0 0 (some Zone.z))) = some 1771059600000 ∧
    parseBooqableDate 600 (some (Timestamp.mk 2026 2 14 9 0 0 (some Zone.z))) =
      some 1771023600000 ∧
    (1771059600000 : Int) ≠ 1771023600000 := by
  refine ⟨by decide, by decide, by decide⟩

/-- C1 (amended): part_000's `parseBooqableToAbs` implements the claimed
rule exactly (proved equal to the spec rule `specParse`: explicit zone
parses directly to the denoted instant without the fixed offset, a naive
timestamp is civil-time-read-as-UTC minus the fixed offset), while
availability.js's `parseBooqableDate` strips `Z`/`±HH:MM` markers and
converts every such timestamp as naive local time by subtracting
`fixedOffsetMinutes`, and rejects compact `±HHMM` suffixes. -/
theorem parse_zone_rule (fixedOffsetMinutes : Int) :
    (∀ ts : Option Timestamp,
      parseBooqableToAbs (fixedOffsetMinutes * 60000) ts = specParse fixedOffsetMinutes ts) ∧
    (∀ t : Timestamp, (t.zone = some Zone.z ∨ ∃ m, t.zone = some (Zone.colon m)) →
      parseBooqableDate fixedOffsetMinutes (some t) =
        some (civilMs t - fixedOffsetMinutes * 60000)) ∧
    (∀ t : Timestamp, (∃ m, t.zone = some (Zone.compact m)) →
      parseBooqableDate fixedOffsetMinutes (some t) = none) := by
  refine ⟨?_, ?_, ?_⟩
  · intro ts
    cases ts with
    | none => rfl
    | some t =>
      rcases hz : t.zone with _ | zo
      · simp [parseBooqableToAbs, specParse, hz]
      · simp [parseBooqableToAbs, specParse, hz]
  · intro t h
    rcases h with hz | ⟨m, hz⟩
    · simp [parseBooqableDate, hz]
    · simp [parseBooqableDate, hz]
  · intro t h
    rcases h with ⟨m, hz⟩
    simp [parseBooqableDate, hz]

/-- Witness for C1 at a concrete input: a `+10:00`-suffixed timestamp is
converted by `parseBooqableDate` as if it were naive local time. -/
theorem parse_zone_rule_witness :
    parseBooqableDate 600 (some (Timestamp.mk 2026 2 14 9 0 0 (some (Zone.colon 600)))) =
      some (civilMs (Timestamp.mk 2026 2 14 9 0 0 (some (Zone.colon 600))) - 600 * 60000) :=
  (parse_zone_rule 600).2.1 (Timestamp.mk 2026 2 14 9 0 0 (some (Zone.colon 600)))
    (Or.inr ⟨600, rfl⟩)

/-- Witness for C10 at a concrete input: 20:00 local (10:00 UTC at
offset +600 minutes) rounds to 09:00 local the next day, never moving
earlier. -/
theorem roundToBusinessHours_spec_witness :
    roundToBusinessHours 600 36000000 = 82800000 ∧
    (36000000 : Int) ≤ roundToBusinessHours 600 36000000 := by
  have h1 := (roundToBusinessHours_spec 600 36000000).2.2.2.1 (by decide)
  have h2 := (roundToBusinessHours_spec 600 36000000).1
  exact ⟨by omega, h2⟩

/-- C2 counterexample: in the availability.js tiles (lines 574-628) a
reservation picked up 09:00 and returned 14:00 the same local day
(buffered interval 08:45-14:15) yields a "Heads-up" tile even though the
unbuffered pickup instant falls inside `[dayWindow.from, dayWindow.till)`,
contradicting the claim that such a day is always Booked and never
HeadsUp. -/
theorem tile_headsUp_despite_pickup_cex :
    (let d : AvailDay := { startUtcMs := 0, endUtcMs := 86400000 }
     let iv : IV := { startMs := 31500000, endMs := 51300000,
                      startsRaw := 32400000, stopsRaw := 50400000 }
     (d.startUtcMs ≤ iv.startsRaw ∧ iv.startsRaw < d.endUtcMs) ∧
       (tileFor 0 d [iv]).status = "Heads-up" ∧
       (tileFor 0 d [iv]).status ≠ "Booked") := by
  decide

/-- C2 (amended): in the part_000 day classifier, whenever some overlapping
planning's reserved start falls within the day window the tile is Booked
(never Heads-up), and `bookedFrom`/`bookedUntil` report the human
`starts_at`/`stops_at` times (falling back to the reserved fields) of the
earliest-starting such planning - merging plays no role, since the
classifier works on the raw planning list.  (The availability.js variant
instead derives the tile from the first overlapping buffered interval and
can produce Heads-up in this situation, and the start test uses the
reserved - buffer-inclusive - pickup, not the unbuffered one.) -/
theorem dayStatus_booked_reports_earliest (tz cutoff : Int) (day : DayWindow)
    (ps : List Planning) (h : startsTodayOf tz day ps ≠ []) :
    ∃ p rest, sortBy (keyFrom tz) (startsTodayOf tz day ps) = p :: rest ∧
      p ∈ startsTodayOf tz day ps ∧
      (∀ q ∈ startsTodayOf tz day ps, keyFrom tz p ≤ keyFrom tz q) ∧
      dayStatusFor tz cutoff day ps =
        { status := "Booked"
          bookedFrom := some (fmtTime tz (p.starts_at <|> p.reserved_from))
          bookedUntil := some (fmtTime tz (p.stops_at <|> p.reserved_till)) } := by
  rcases hD : dayOverlapsOf tz day ps with _ | ⟨d0, drest⟩
  · exfalso
    apply h
    unfold startsTodayOf
    rw [hD]
    rfl
  · rcases hsort : sortBy (keyFrom tz) (startsTodayOf tz day ps) with _ | ⟨p, rest⟩
    · exfalso
      rcases List.exists_mem_of_ne_nil _ h with ⟨a, ha⟩
      have : a ∈ sortBy (keyFrom tz) (startsTodayOf tz day ps) :=
        (mem_sortBy _ a _).mpr ha
      rw [hsort] at this
      exact absurd this (List.not_mem_nil a)
    · refine ⟨p, rest, rfl, ?_, ?_, ?_⟩
      · have hp : p ∈ sortBy (keyFrom tz) (startsTodayOf tz day ps) := by
          rw [hsort]
          exact List.mem_cons_self p rest
        exact (mem_sortBy _ p _).mp hp
      · intro q hq
        have hqs : q ∈ sortBy (keyFrom tz) (startsTodayOf tz day ps) :=
          (mem_sortBy _ q _).mpr hq
        rw [hsort] at hqs
        have hpw := pairwise_sortBy (keyFrom tz) (startsTodayOf tz day ps)
        rw [hsort] at hpw
        rcases List.mem_cons.mp hqs with rfl | hq2
        · exact le_refl _
        · exact (List.pairwise_cons.mp hpw).1 q hq2
      · unfold dayStatusFor
        rw [hD, hsort]

/-- Witness for C2: scenario E of the spec - reservations 09:00-11:00 and
11:30-14:00 on the same day, 15-minute buffers making the reserved
(buffered) intervals touch; the tile is Booked and reports the first
reservation's human pickup/return times. -/
theorem dayStatus_booked_reports_earliest_witness :
    ∃ p rest,
      sortBy (keyFrom 36000000)
          (startsTodayOf 36000000 { fromAbs := 1770991200000, tillAbs := 1771077600000 }
            [{ reserved_from := some (Timestamp.mk 2026 2 14 8 45 0 none)
               reserved_till := some (Timestamp.mk 2026 2 14 11 15 0 none)
               starts_at := some (Timestamp.mk 2026 2 14 9 0 0 none)
               stops_at := some (Timestamp.mk 2026 2 14 11 0 0 none) },
             { reserved_from := some (Timestamp.mk 2026 2 14 11 15 0 none)
               reserved_till := some (Timestamp.mk 2026 2 14 14 15 0 none)
               starts_at := some (Timestamp.mk 2026 2 14 11 30 0 none)
               stops_at := some (Timestamp.mk 2026 2 14 14 0 0 none) }]) = p :: rest ∧
      p ∈ startsTodayOf 36000000 { fromAbs := 1770991200000, tillAbs := 1771077600000 }
          [{ reserved_from := some (Timestamp.mk 2026 2 14 8 45 0 none)
             reserved_till := some (Timestamp.mk 2026 2 14 11 15 0 none)
             starts_at := some (Timestamp.mk 2026 2 14 9 0 0 none)
             stops_at := some (Timestamp.mk 2026 2 14 11 0 0 none) },
           { reserved_from := some (Timestamp.mk 2026 2 14 11 15 0 none)
             reserved_till := some (Timestamp.mk 2026 2 14 14 15 0 none)
             starts_at := some (Timestamp.mk 2026 2 14 11 30 0 none)
             stops_at := some (Timestamp.mk 2026 2 14 14 0 0 none) }] ∧
      (∀ q ∈ startsTodayOf 36000000 { fromAbs := 1770991200000, tillAbs := 1771077600000 }
          [{ reserved_from := some (Timestamp.mk 2026 2 14 8 45 0 none)
             reserved_till := some (Timestamp.mk 2026 2 14 11 15 0 none)
             starts_at := some (Timestamp.mk 2026 2 14 9 0 0 none)
             stops_at := some (Timestamp.mk 2026 2 14 11 0 0 none) },
           { reserved_from := some (Timestamp.mk 2026 2 14 11 15 0 none)
             reserved_till := some (Timestamp.mk 2026 2 14 14 15 0 none)
             starts_at := some (Timestamp.mk 2026 2 14 11 30 0 none)
             stops_at := some (Timestamp.mk 2026 2 14 14 0 0 none) }],
        keyFrom 36000000 p ≤ keyFrom 36000000 q) ∧
      dayStatusFor 36000000 6 { fromAbs := 1770991200000, tillAbs := 1771077600000 }
          [{ reserved_from := some (Timestamp.mk 2026 2 14 8 45 0 none)
             reserved_till := some (Timestamp.mk 2026 2 14 11 15 0 none)
             starts_at := some (Timestamp.mk 2026 2 14 9 0 0 none)
             stops_at := some (Timestamp.mk 2026 2 14 11 0 0 none) },
           { reserved_from := some (Timestamp.mk 2026 2 14 11 15 0 none)
             reserved_till := some (Timestamp.mk 2026 2 14 14 15 0 none)
             starts_at := some (Timestamp.mk 2026 2 14 11 30 0 none)
             stops_at := some (Timestamp.mk 2026 2 14 14 0 0 none) }] =
        { status := "Booked"
          bookedFrom := some (fmtTime 36000000 (p.starts_at <|> p.reserved_from))
          bookedUntil := some (fmtTime 36000000 (p.stops_at <|> p.reserved_till)) } := by
  exact dayStatus_booked_reports_earliest 36000000 6
    { fromAbs := 1770991200000, tillAbs := 1771077600000 } _ (by decide)

/-- C3 counterexample: a carry-over whose unbuffered return (`stops_at`)
is 05:50 local (hour 5, strictly below `earlyCutoffHour = 6`) but whose
reserved (buffer-inclusive) return is 06:05 local is classified Heads-up,
not Available: part_000 line 379 tests `hourInTz(p.reserved_till)`, the
reserved return, not the unbuffered one, so the claim fails as stated. -/
theorem dayStatus_headsUp_despite_early_unbuffered_cex :
    (let tz : Int := 36000000
     let day : DayWindow := { fromAbs := 1770991200000, tillAbs := 1771077600000 }
     let p : Planning := { reserved_from := some (Timestamp.mk 2026 2 13 20 0 0 none)
                           reserved_till := some (Timestamp.mk 2026 2 14 6 5 0 none)
                           starts_at := some (Timestamp.mk 2026 2 13 20 0 0 none)
                           stops_at := some (Timestamp.mk 2026 2 14 5 50 0 none) }
     hourInTz tz p.stops_at = 5 ∧ (5 : Int) < 6 ∧
       (dayStatusFor tz 6 day [p]).status = "Heads-up" ∧
       (dayStatusFor tz 6 day [p]).status ≠ "Available") := by
  decide

/-- C3 (amended): when no overlapping planning starts within the day and
the earliest-ending carry-over's reserved (buffer-inclusive) return
`reserved_till` has local hour strictly below `earlyCutoffHour`, the day
is classified Available, not HeadsUp; in particular an 02:00 local
unbuffered return (02:15 reserved) with cutoff 6 yields an Available tile
(see the witness).  The hour test is on the reserved return, so an
unbuffered return before the cutoff whose buffer crosses the cutoff hour
is still HeadsUp (see the counterexample). -/
theorem dayStatus_available_early_reserved_return (tz cutoff : Int) (day : DayWindow)
    (ps : List Planning) (p : Planning) (rest : List Planning)
    (hS : startsTodayOf tz day ps = [])
    (hC : sortBy (keyTill tz) (carryReturnOf tz day ps) = p :: rest)
    (hH : hourInTz tz p.reserved_till < cutoff) :
    dayStatusFor tz cutoff day ps = { status := "Available" } := by
  rcases hD : dayOverlapsOf tz day ps with _ | ⟨d0, drest⟩
  · unfold dayStatusFor
    rw [hD]
  · unfold dayStatusFor
    rw [hD, hS]
    show (match sortBy (keyTill tz) (carryReturnOf tz day ps) with
      | p2 :: _ =>
        if hourInTz tz p2.reserved_till < cutoff then ({ status := "Available" } : Tile)
        else
          let backTime := fmtTime tz (p2.stops_at <|> p2.reserved_till)
          let freeTime := fmtTime tz p2.reserved_till
          if backTime = freeTime then { status := "Heads-up", backTime := some backTime }
          else { status := "Heads-up", backTime := some backTime, freeTime := some freeTime }
      | [] => { status := "Booked" }) = { status := "Available" }
    rw [hC]
    exact if_pos hH

/-- Witness for C3: scenario C of the spec - a carry-over returning 02:00
local (reserved 02:15), cutoff hour 6, gives an Available tile. -/
theorem dayStatus_available_early_reserved_return_witness :
    dayStatusFor 36000000 6 { fromAbs := 1770991200000, tillAbs := 1771077600000 }
        [{ reserved_from := some (Timestamp.mk 2026 2 13 20 0 0 none)
           reserved_till := some (Timestamp.mk 2026 2 14 2 15 0 none)
           starts_at := some (Timestamp.mk 2026 2 13 20 0 0 none)
           stops_at := some (Timestamp.mk 2026 2 14 2 0 0 none) }] =
      { status := "Available" } := by
  exact dayStatus_available_early_reserved_return 36000000 6
    { fromAbs := 1770991200000, tillAbs := 1771077600000 } _
    { reserved_from := some (Timestamp.mk 2026 2 13 20 0 0 none)
      reserved_till := some (Timestamp.mk 2026 2 14 2 15 0 none)
      starts_at := some (Timestamp.mk 2026 2 13 20 0 0 none)
      stops_at := some (Timestamp.mk 2026 2 14 2 0 0 none) } []
    (by decide) (by decide) (by decide)

/-- C4 counterexample: with an empty interval list, at 20:00 local the
availability.js handler does not report "Available now": the
business-hours gate (lines 496-505) replaces it with the next 9am
opening, so the claim's "regardless of the time of day" fails. -/
theorem emptyIntervals_gated_by_businessHours_cex :
    nextAvailableFor 0 14400000 72000000 [] ≠ "Available now" := by
  decide

/-- C4 (amended): with no busy intervals the engine is immediately
rentable - `computeRentableStartAbs` returns `from` itself, every day tile
of both variants is Available, and the part_000 handler reports
"Available now" at any time of day - but the availability.js handler
reports "Available now" only when the local hour is in [9, 18), reporting
the next 9am business opening otherwise. -/
theorem empty_intervals_available (tz cutoff minGap offsetMinutes nowAbs fromAbs : Int)
    (day : DayWindow) (d : AvailDay) :
    computeRentableStartAbs tz minGap [] fromAbs = fromAbs ∧
    dayStatusFor tz cutoff day [] = { status := "Available" } ∧
    tileFor offsetMinutes d [] = { status := "Available" } ∧
    nextAvailableP0 tz minGap [] nowAbs = "Available now" ∧
    (9 ≤ ((nowAbs + offsetMinutes * 60000) % 86400000) / 3600000 ∧
        ((nowAbs + offsetMinutes * 60000) % 86400000) / 3600000 < 18 →
      nextAvailableFor offsetMinutes minGap nowAbs [] = "Available now") := by
  refine ⟨rfl, rfl, rfl, rfl, ?_⟩
  intro h
  simp only [nextAvailableFor]
  exact if_pos ⟨rfl, h⟩

/-- Witness for C4 at concrete inputs: no reservations at 10:00 local -
both handlers report "Available now". -/
theorem empty_intervals_available_witness :
    nextAvailableFor 0 14400000 36000000 [] = "Available now" ∧
    nextAvailableP0 36000000 14400000 [] 72000000 = "Available now" :=
  ⟨(empty_intervals_available 36000000 6 14400000 0 36000000 0
      { fromAbs := 0, tillAbs := 86400000 } { startUtcMs := 0, endUtcMs := 86400000 }).2.2.2.2
        (by decide),
    (empty_intervals_available 36000000 6 14400000 0 72000000 0
      { fromAbs := 0, tillAbs := 86400000 } { startUtcMs := 0, endUtcMs := 86400000 }).2.2.2.1⟩

/-- C8 counterexample: two runs of the availability.js planning loop
whose only difference is the identity (resource) and raw value of the
offending unparseable reservation produce byte-identical outputs,
including every debug counter - so no diagnostic naming the resource id,
field or raw value is recorded, contradicting the claim's "(and a
diagnostic recorded)". -/
theorem no_parse_diagnostic_cex :
    (let cars := [CarRec.mk "A" 900 900, CarRec.mk "B" 0 0]
     let good : PlanRec := { item_id := some "A", product_rel := none
                             starts_at := some (Timestamp.mk 2026 2 14 9 0 0 none)
                             stops_at := some (Timestamp.mk 2026 2 14 11 0 0 none) }
     let badA : PlanRec := { item_id := some "A", product_rel := none
                             starts_at := none
                             stops_at := some (Timestamp.mk 2026 2 14 13 0 0 none) }
     let badB : PlanRec := { item_id := some "B", product_rel := none
                             starts_at := some (Timestamp.mk 2026 2 14 9 0 0
                               (some (Zone.compact 600)))
                             stops_at := some (Timestamp.mk 2026 2 14 13 0 0 none) }
     processPlannings cars 600 [good, badA] = processPlannings cars 600 [good, badB] ∧
       badA.item_id ≠ badB.item_id ∧ badA.starts_at ≠ badB.starts_at) := by
  decide

/-- C8 (amended): a reservation whose pickup or return timestamp fails to
parse is silently dropped - the interval map and every debug counter are
left exactly as if the reservation were absent (no diagnostic is
recorded) - while every other reservation of the same resource and of
every other resource still contributes its buffer-padded busy interval. -/
theorem malformed_timestamp_isolated (cars : List CarRec) (offsetMinutes : Int)
    (pre post : List PlanRec) (bad : PlanRec) (pid : String) (car : CarRec)
    (h1 : resolveProductIdFromPlanning bad = some pid)
    (h2 : findCar cars pid = some car)
    (h3 : parseBooqableDate offsetMinutes bad.starts_at = none ∨
      parseBooqableDate offsetMinutes bad.stops_at = none) :
    processPlannings cars offsetMinutes (pre ++ bad :: post) =
      processPlannings cars offsetMinutes (pre ++ post) := by
  have key : ∀ s, processPlanning cars offsetMinutes s bad = s := by
    intro s
    simp only [processPlanning, h1, h2]
    rcases hs : parseBooqableDate offsetMinutes bad.starts_at with _ | v
    · rfl
    · rcases h3 with h3 | h3
      · rw [hs] at h3
        exact absurd h3 (by simp)
      · rw [h3]
  unfold processPlannings
  rw [List.foldl_append, List.foldl_append, List.foldl_cons, key]

/-- Witness for C8 at a concrete input: resource B's reservation with a
missing pickup timestamp is dropped, while resource A's reservation and
B's other reservation still contribute. -/
theorem malformed_timestamp_isolated_witness :
    processPlannings [CarRec.mk "A" 900 900, CarRec.mk "B" 0 0] 600
        [PlanRec.mk (some "A") none (some (Timestamp.mk 2026 2 14 9 0 0 none))
           (some (Timestamp.mk 2026 2 14 11 0 0 none)),
         PlanRec.mk (some "B") none none (some (Timestamp.mk 2026 2 14 13 0 0 none)),
         PlanRec.mk (some "B") none (some (Timestamp.mk 2026 2 14 14 0 0 none))
           (some (Timestamp.mk 2026 2 14 16 0 0 none))] =
      processPlannings [CarRec.mk "A" 900 900, CarRec.mk "B" 0 0] 600
        [PlanRec.mk (some "A") none (some (Timestamp.mk 2026 2 14 9 0 0 none))
           (some (Timestamp.mk 2026 2 14 11 0 0 none)),
         PlanRec.mk (some "B") none (some (Timestamp.mk 2026 2 14 14 0 0 none))
           (some (Timestamp.mk 2026 2 14 16 0 0 none))] :=
  malformed_timestamp_isolated [CarRec.mk "A" 900 900, CarRec.mk "B" 0 0] 600
    [PlanRec.mk (some "A") none (some (Timestamp.mk 2026 2 14 9 0 0 none))
       (some (Timestamp.mk 2026 2 14 11 0 0 none))]
    [PlanRec.mk (some "B") none (some (Timestamp.mk 2026 2 14 14 0 0 none))
       (some (Timestamp.mk 2026 2 14 16 0 0 none))]
    (PlanRec.mk (some "B") none none (some (Timestamp.mk 2026 2 14 13 0 0 none)))
    "B" (CarRec.mk "B" 0 0) rfl (by decide) (Or.inl rfl)

/-- C9: both day classifiers are total and produce exactly one tile per
(resource, day) - one tile per day window, with status exactly one of the
three strings "Available", "Booked", "Heads-up". -/
theorem classifier_exhaustive (tz cutoff offsetMinutes : Int) (day : DayWindow)
    (d : AvailDay) (ps : List Planning) (ivals : List IV)
    (days0 : List DayWindow) (days1 : List AvailDay) :
    ((dayStatusFor tz cutoff day ps).status = "Available" ∨
      (dayStatusFor tz cutoff day ps).status = "Booked" ∨
      (dayStatusFor tz cutoff day ps).status = "Heads-up") ∧
    ((tileFor offsetMinutes d ivals).status = "Available" ∨
      (tileFor offsetMinutes d ivals).status = "Booked" ∨
      (tileFor offsetMinutes d ivals).status = "Heads-up") ∧
    (dayStatuses tz cutoff days0 ps).length = days0.length ∧
    (tiles offsetMinutes days1 ivals).length = days1.length := by
  refine ⟨?_, ?_, ?_, ?_⟩
  · unfold dayStatusFor
    split
    · exact Or.inl rfl
    · split
      · exact Or.inr (Or.inl rfl)
      · split
        · split
          · exact Or.inl rfl
          · dsimp only
            split
            · exact Or.inr (Or.inr rfl)
            · exact Or.inr (Or.inr rfl)
        · exact Or.inr (Or.inl rfl)
  · unfold tileFor
    split
    · exact Or.inl rfl
    · split
      · dsimp only
        split
        · exact Or.inr (Or.inr rfl)
        · exact Or.inr (Or.inl rfl)
      · exact Or.inr (Or.inl rfl)
  · unfold dayStatuses
    exact List.length_map _ _
  · unfold tiles
    exact List.length_map _ _

end Bubblegum



